import Mathlib

/-!
# Verification of the mini-emergent controller (`src/controller/server.js`)

Shallow embedding of the process-lifecycle controller: the in-memory
registry of running projects (`runningProjects`, a JS `Map`), the bounded
log buffer (`appendLog`), and the HTTP handlers for create / start / stop /
logs, together with the asynchronous process-exit and stream-data observers
registered by `wireProcessLoggingAndCleanup`.

The registry is modelled as an association list with JS `Map` semantics
(`set` replaces in place or appends, `delete` removes the entry, `get`
returns the first binding).  Filesystem checks, spawn success, kill success
and timestamps are inputs from the environment, passed explicitly to each
handler.
-/

set_option maxRecDepth 10000

/-- Buffer capacity `MAX_LOG_LINES = 500` from server.js line 15. -/
def MAX_LOG_LINES : Nat := 500

/-- Character class of the validation regex `^[a-zA-Z0-9-_]+$`
(server.js line 39). -/
def isNameChar (c : Char) : Bool :=
  (('a' ≤ c && c ≤ 'z') || ('A' ≤ c && c ≤ 'Z') || ('0' ≤ c && c ≤ '9')
    || c = '-' || c = '_')

/-- `^[a-zA-Z0-9-_]+$`.test(name): nonempty and every character in the
class. -/
def validNameStr (s : String) : Bool :=
  s.length != 0 && s.data.all isNameChar

/-- `validateProjectName` (server.js lines 38-40): the body field must be a
string (`none` models a missing or non-string JSON field) and match the
regex. -/
def validateProjectName : Option String → Bool
  | none => false
  | some s => validNameStr s

/-- The resolved projects directory `PROJECTS_DIR`.  Its concrete value is
environment dependent; the embedding fixes a representative. -/
def PROJECTS_DIR : String := "/root/mini-emergent/projects"

/-- `getProjectPath` (server.js line 42): `path.join(PROJECTS_DIR, name)`.
For separator-free validated names `path.join` is plain concatenation with
one separator. -/
def getProjectPath (name : String) : String :=
  PROJECTS_DIR ++ "/" ++ name

/-- `appendLog` (server.js lines 45-50): push at the tail, then
`splice(0, length - MAX_LOG_LINES)` drops the oldest entries when the
capacity is exceeded. -/
def appendLog (logs : List String) (line : String) : List String :=
  let l := logs ++ [line]
  if MAX_LOG_LINES < l.length then l.drop (l.length - MAX_LOG_LINES) else l

theorem appendLog_eq_drop (logs : List String) (line : String) :
    appendLog logs line =
      (logs ++ [line]).drop ((logs.length + 1) - MAX_LOG_LINES) := by
  simp only [appendLog]
  split
  · simp
  · have h : (logs ++ [line]).length ≤ MAX_LOG_LINES := Nat.le_of_not_lt ‹_›
    simp only [List.length_append, List.length_singleton] at h
    rw [Nat.sub_eq_zero_of_le h, List.drop_zero]

theorem appendLog_length (logs : List String) (line : String) :
    (appendLog logs line).length ≤ MAX_LOG_LINES := by
  rw [appendLog_eq_drop, List.length_drop]
  simp only [List.length_append, List.length_singleton]
  omega

theorem foldl_appendLog (l acc : List String) (h : acc.length ≤ MAX_LOG_LINES) :
    List.foldl appendLog acc l =
      (acc ++ l).drop ((acc.length + l.length) - MAX_LOG_LINES) := by
  induction l generalizing acc with
  | nil =>
      simp [Nat.sub_eq_zero_of_le (by simpa using h)]
  | cons e t ih =>
      have hlen : (appendLog acc e).length ≤ MAX_LOG_LINES := appendLog_length acc e
      have hfold : List.foldl appendLog acc (e :: t) =
          List.foldl appendLog (appendLog acc e) t := rfl
      have hd1 : (acc.length + 1) - MAX_LOG_LINES ≤ (acc ++ [e]).length := by
        simp only [List.length_append, List.length_singleton]
        omega
      rw [hfold, ih _ hlen, appendLog_eq_drop,
        ← List.drop_append_of_le_length hd1, List.drop_drop]
      have harr : (acc ++ [e]) ++ t = acc ++ (e :: t) := by
        simp
      rw [harr]
      congr 1
      have hL : (appendLog acc e).length =
          (acc.length + 1) - ((acc.length + 1) - MAX_LOG_LINES) := by
        rw [appendLog_eq_drop, List.length_drop]
        simp
      simp only [List.length_drop, List.length_append, List.length_singleton,
        List.length_cons, List.length_nil]
      simp only [List.length_drop, List.length_append, List.length_singleton,
        List.length_cons, List.length_nil] at hL
      omega

theorem foldl_appendLog_nil_length (l : List String) :
    (List.foldl appendLog [] l).length ≤ MAX_LOG_LINES := by
  rw [foldl_appendLog l [] (by simp)]
  rw [List.length_drop]
  simp only [List.nil_append, List.length_nil, Nat.zero_add]
  omega

/-- C3: the log buffer never exceeds the capacity `N = 500` at any point of
an append sequence, and after appending `N + k` entries to an empty buffer
the first `k` entries are evicted and the final buffer is exactly the last
`N` entries in their original relative order. -/
theorem appendLog_fifo_bounded (entries : List String) (k : Nat)
    (h : entries.length = MAX_LOG_LINES + k) :
    MAX_LOG_LINES = 500
      ∧ List.foldl appendLog [] entries = entries.drop k
      ∧ (List.foldl appendLog [] entries).length = MAX_LOG_LINES
      ∧ ∀ i, (List.foldl appendLog [] (entries.take i)).length ≤ MAX_LOG_LINES := by
  refine ⟨rfl, ?_, ?_, fun i => foldl_appendLog_nil_length _⟩
  · rw [foldl_appendLog entries [] (by simp)]
    simp only [List.nil_append, List.length_nil, Nat.zero_add]
    rw [h]
    congr 1
    omega
  · rw [foldl_appendLog entries [] (by simp), List.length_drop]
    simp only [List.nil_append, List.length_nil, Nat.zero_add]
    omega

/-- Witness for C3 at a concrete input: 501 entries in a 500-capacity
buffer evict exactly the first one. -/
theorem appendLog_fifo_bounded_witness :
    (List.replicate 501 "a").length = MAX_LOG_LINES + 1
      ∧ (MAX_LOG_LINES = 500
          ∧ List.foldl appendLog [] (List.replicate 501 "a") =
              (List.replicate 501 "a").drop 1
          ∧ (List.foldl appendLog [] (List.replicate 501 "a")).length = MAX_LOG_LINES
          ∧ ∀ i, (List.foldl appendLog []
              ((List.replicate 501 "a").take i)).length ≤ MAX_LOG_LINES) :=
  ⟨by simp [MAX_LOG_LINES],
   appendLog_fifo_bounded (List.replicate 501 "a") 1 (by simp [MAX_LOG_LINES])⟩

/-- Status field of a tracked record: `"running" | "stopping"`
(server.js lines 25, 184, 223). -/
inductive Status where
  | running
  | stopping
deriving DecidableEq, Repr

/-- `RunningProjectRecord`: one entry of the `runningProjects` map
(server.js lines 17-29, 177-187).  The opaque subprocess handle is
represented by its `pid`; signal delivery and exit are events from the
environment. -/
structure ProjRecord where
  name : String
  pid : Nat
  projectPath : String
  command : String
  args : List String
  startedAt : String
  status : Status
  logs : List String
deriving DecidableEq, Repr

/-- The `runningProjects` JS `Map`, as an association list in insertion
order. -/
abbrev Registry := List (String × ProjRecord)

/-- JS `Map.prototype.get`: first binding of the key. -/
def mapGet {α : Type} : List (String × α) → String → Option α
  | [], _ => none
  | e :: t, n => if e.1 = n then some e.2 else mapGet t n

/-- JS `Map.prototype.set`: replace the binding in place if the key is
present, append at the end otherwise. -/
def mapSet {α : Type} : List (String × α) → String → α → List (String × α)
  | [], n, v => [(n, v)]
  | e :: t, n, v => if e.1 = n then (n, v) :: t else e :: mapSet t n v

/-- JS `Map.prototype.delete`: remove the binding of the key. -/
def mapDelete {α : Type} : List (String × α) → String → List (String × α)
  | [], _ => []
  | e :: t, n => if e.1 = n then t else e :: mapDelete t n


theorem mapGet_mapSet {α : Type} (r : List (String × α)) (n : String) (v : α)
    (m : String) :
    mapGet (mapSet r n v) m = if m = n then some v else mapGet r m := by
  induction r with
  | nil =>
      by_cases hm : m = n
      · subst hm
        simp [mapSet, mapGet]
      · have hnm : ¬ n = m := fun h => hm h.symm
        simp [mapSet, mapGet, hm, hnm]
  | cons e t ih =>
      by_cases he : e.1 = n
      · by_cases hm : m = n
        · subst hm
          simp [mapSet, mapGet, he]
        · have hnm : ¬ n = m := fun h => hm h.symm
          have hem : ¬ e.1 = m := fun h => hm (h.symm.trans he)
          simp [mapSet, mapGet, he, hm, hnm, hem]
      · by_cases hem : e.1 = m
        · have hm : ¬ m = n := fun h => he (hem.trans h)
          simp [mapSet, mapGet, he, hem, hm]
        · simp [mapSet, mapGet, he, hem, ih]

theorem mapGet_mapDelete_ne {α : Type} (r : List (String × α)) (n m : String)
    (h : m ≠ n) :
    mapGet (mapDelete r n) m = mapGet r m := by
  induction r with
  | nil => simp [mapDelete]
  | cons e t ih =>
      have hnm : ¬ n = m := fun h2 => h h2.symm
      by_cases he : e.1 = n
      · have hem : ¬ e.1 = m := fun h2 => h (h2.symm.trans he)
        simp [mapDelete, mapGet, he, hem, hnm]
      · by_cases hem : e.1 = m
        · simp [mapDelete, mapGet, he, hem, h]
        · simp [mapDelete, mapGet, he, hem, ih]

theorem mapGet_eq_none_of_not_mem {α : Type} (r : List (String × α)) (n : String)
    (h : n ∉ r.map Prod.fst) :
    mapGet r n = none := by
  induction r with
  | nil => rfl
  | cons e t ih =>
      simp only [List.map_cons, List.mem_cons] at h
      push_neg at h
      have he : ¬ e.1 = n := fun h2 => h.1 h2.symm
      simp [mapGet, he, ih h.2]

theorem mem_map_fst_mapSet {α : Type} (r : List (String × α)) (n : String) (v : α)
    (m : String) :
    m ∈ (mapSet r n v).map Prod.fst ↔ (m ∈ r.map Prod.fst ∨ m = n) := by
  induction r with
  | nil => simp [mapSet]
  | cons e t ih =>
      by_cases he : e.1 = n
      · have hset : mapSet (e :: t) n v = (n, v) :: t := by
          simp [mapSet, he]
        rw [hset]
        subst he
        simp only [List.map_cons, List.mem_cons]
        tauto
      · have hset : mapSet (e :: t) n v = e :: mapSet t n v := by
          simp [mapSet, he]
        rw [hset]
        simp only [List.map_cons, List.mem_cons, ih]
        tauto

theorem nodup_map_fst_mapSet {α : Type} (r : List (String × α)) (n : String) (v : α)
    (h : (r.map Prod.fst).Nodup) :
    ((mapSet r n v).map Prod.fst).Nodup := by
  induction r with
  | nil => simp [mapSet]
  | cons e t ih =>
      simp only [List.map_cons, List.nodup_cons] at h
      by_cases he : e.1 = n
      · have hset : mapSet (e :: t) n v = (n, v) :: t := by
          simp [mapSet, he]
        rw [hset]
        simp only [List.map_cons, List.nodup_cons]
        exact ⟨he ▸ h.1, h.2⟩
      · have hset : mapSet (e :: t) n v = e :: mapSet t n v := by
          simp [mapSet, he]
        rw [hset]
        simp only [List.map_cons, List.nodup_cons]
        refine ⟨?_, ih h.2⟩
        rw [mem_map_fst_mapSet]
        rintro (hm | hm)
        · exact h.1 hm
        · exact he hm

theorem mapDelete_subset {α : Type} (r : List (String × α)) (n : String) :
    mapDelete r n ⊆ r := by
  induction r with
  | nil => simp [mapDelete]
  | cons e t ih =>
      by_cases he : e.1 = n
      · simp only [mapDelete, if_pos he]
        exact fun x hx => List.mem_cons_of_mem e hx
      · simp only [mapDelete, if_neg he]
        intro x hx
        rcases List.mem_cons.mp hx with hx | hx
        · exact hx ▸ List.mem_cons_self e t
        · exact List.mem_cons_of_mem e (ih hx)

theorem nodup_map_fst_mapDelete {α : Type} (r : List (String × α)) (n : String)
    (h : (r.map Prod.fst).Nodup) :
    ((mapDelete r n).map Prod.fst).Nodup := by
  induction r with
  | nil => simp [mapDelete]
  | cons e t ih =>
      simp only [List.map_cons, List.nodup_cons] at h
      by_cases he : e.1 = n
      · simpa [mapDelete, he] using h.2
      · simp only [mapDelete, if_neg he, List.map_cons, List.nodup_cons]
        refine ⟨?_, ih h.2⟩
        intro hm
        rcases List.mem_map.mp hm with ⟨x, hx, hfst⟩
        exact h.1 (List.mem_map.mpr ⟨x, mapDelete_subset t n hx, hfst⟩)

theorem mapGet_mapDelete_self {α : Type} (r : List (String × α)) (n : String)
    (h : (r.map Prod.fst).Nodup) :
    mapGet (mapDelete r n) n = none := by
  induction r with
  | nil => rfl
  | cons e t ih =>
      simp only [List.map_cons, List.nodup_cons] at h
      by_cases he : e.1 = n
      · simp only [mapDelete, if_pos he]
        apply mapGet_eq_none_of_not_mem
        rw [← he]
        exact h.1
      · simp [mapDelete, mapGet, he, ih h.2]

theorem not_mem_keys_of_mapGet_none {α : Type} (r : List (String × α)) (n : String)
    (h : mapGet r n = none) : n ∉ r.map Prod.fst := by
  induction r with
  | nil => simp
  | cons e t ih =>
      simp only [mapGet] at h
      by_cases he : e.1 = n
      · simp [he] at h
      · simp only [if_neg he] at h
        simp only [List.map_cons, List.mem_cons]
        push_neg
        exact ⟨fun h2 => he h2.symm, ih h⟩

/-- Outcome of the `execa(command, args, ...)` call inside the `try` block
(server.js lines 168-174): either a subprocess with a pid, or a synchronous
throw caught at line 202. -/
inductive SpawnOutcome where
  | ok (pid : Nat)
  | fail (msg : String)
deriving DecidableEq, Repr

/-- The `args` field of a start request body.  `absent` triggers the
destructuring default `["start"]`; `notStrings` models a value that is not
an array of strings and fails the check at line 153. -/
inductive ArgsVal where
  | absent
  | strs (l : List String)
  | notStrings
deriving DecidableEq, Repr

/-- The array-of-strings check at server.js line 153. -/
def argsValid : ArgsVal → Bool
  | .notStrings => false
  | _ => true

/-- Effective args after the destructuring default `args = ["start"]`
(server.js line 141). -/
def effArgs : ArgsVal → List String
  | .absent => ["start"]
  | .strs l => l
  | .notStrings => []

/-- Body of `POST /projects/start` (server.js line 141). -/
structure StartBody where
  name : Option String
  command : Option String
  args : ArgsVal
deriving DecidableEq, Repr

/-- Environment consulted by the start handler: the two `fs.existsSync`
checks, the spawn outcome, and the `new Date().toISOString()` timestamp. -/
structure StartEnv where
  dirExists : Bool
  manifestExists : Bool
  spawn : SpawnOutcome
  now : String
deriving DecidableEq, Repr

/-- Responses of `POST /projects/start` (server.js lines 143-205). -/
inductive StartResp where
  | invalidName
  | alreadyRunning (name : String)
  | invalidArgs
  | dirNotFound (projectPath : String)
  | noManifest (projectPath : String)
  | started (name : String) (pid : Nat) (startedAt : String)
      (command : String) (args : List String) (projectPath : String)
  | spawnFailed (msg : String)
deriving DecidableEq, Repr

/-- HTTP status code attached to each start response. -/
def StartResp.statusCode : StartResp → Nat
  | .invalidName => 400
  | .alreadyRunning _ => 409
  | .invalidArgs => 400
  | .dirNotFound _ => 404
  | .noManifest _ => 400
  | .started _ _ _ _ _ _ => 200
  | .spawnFailed _ => 500

/-- Result of a start request: response plus the registry afterwards. -/
structure StartOut where
  resp : StartResp
  reg : Registry
deriving DecidableEq, Repr

/-- The `[system] started command` log line (server.js line 185). -/
def startLogLine (startedAt command : String) (args : List String) : String :=
  startedAt ++ " [system] started command: " ++ command ++ " "
    ++ String.intercalate " " args

/-- `POST /projects/start` handler (server.js lines 140-206): validate the
name, reject a name already in the registry, validate `args`, require the
project directory, require `package.json` when the command is `npm`, spawn,
insert the fresh record and answer 200 — or catch a spawn throw with the
registry untouched. -/
def startHandler (r : Registry) (b : StartBody) (env : StartEnv) : StartOut :=
  match b.name with
  | none => ⟨.invalidName, r⟩
  | some name =>
    if ¬ validNameStr name then ⟨.invalidName, r⟩
    else if (mapGet r name).isSome then ⟨.alreadyRunning name, r⟩
    else if ¬ argsValid b.args then ⟨.invalidArgs, r⟩
    else
      let command := b.command.getD "npm"
      let args := effArgs b.args
      let projectPath := getProjectPath name
      if ¬ env.dirExists then ⟨.dirNotFound projectPath, r⟩
      else if command = "npm" ∧ env.manifestExists = false then
        ⟨.noManifest projectPath, r⟩
      else
        match env.spawn with
        | .fail msg => ⟨.spawnFailed msg, r⟩
        | .ok pid =>
          let startedAt := env.now
          let st : ProjRecord :=
            { name := name, pid := pid, projectPath := projectPath
              command := command, args := args, startedAt := startedAt
              status := .running
              logs := [startLogLine startedAt command args] }
          ⟨.started name pid startedAt command args projectPath,
            mapSet r name st⟩

/-- Environment consulted by the stop handler: the timestamp and whether
`state.process.kill` returns normally (server.js lines 222-234). -/
structure StopEnv where
  now : String
  killOk : Bool
deriving DecidableEq, Repr

/-- Responses of `POST /projects/stop` (server.js lines 208-235). -/
inductive StopResp where
  | invalidName
  | notRunning (name : String)
  | stopped (name : String) (pid : Nat)
  | killFailed (msg : String)
deriving DecidableEq, Repr

/-- HTTP status code attached to each stop response. -/
def StopResp.statusCode : StopResp → Nat
  | .invalidName => 400
  | .notRunning _ => 404
  | .stopped _ _ => 200
  | .killFailed _ => 500

/-- Result of a stop request: response, registry afterwards, and the pid a
SIGTERM was delivered to (`none` when validation failed, the record was
absent, or `kill` threw). -/
structure StopOut where
  resp : StopResp
  reg : Registry
  signaled : Option Nat
deriving DecidableEq, Repr

/-- The `[system] stop requested` log line (server.js line 224). -/
def stopLogLine (now : String) : String :=
  now ++ " [system] stop requested"

/-- `POST /projects/stop` handler (server.js lines 208-235): validate the
name, 404 when no record exists, otherwise set status to `"stopping"`,
append the stop notice to the record's log buffer, send SIGTERM (with a 5 s
force-kill escalation) and answer 200.  The record is never removed here;
a `kill` throw yields 500 with the mutations retained. -/
def stopHandler (r : Registry) (name? : Option String) (env : StopEnv) : StopOut :=
  match name? with
  | none => ⟨.invalidName, r, none⟩
  | some name =>
    if ¬ validNameStr name then ⟨.invalidName, r, none⟩
    else
      match mapGet r name with
      | none => ⟨.notRunning name, r, none⟩
      | some st =>
        let st' : ProjRecord :=
          { st with status := .stopping
                    logs := appendLog st.logs (stopLogLine env.now) }
        let r' := mapSet r name st'
        if env.killOk then ⟨.stopped name st.pid, r', some st.pid⟩
        else ⟨.killFailed "kill threw", r', none⟩

/-- Exit log line appended by the completion observer
(server.js lines 75 and 83-86). -/
def exitLogLine (now : String) (ok : Bool) (msg : String) : String :=
  if ok then now ++ " [system] process exited successfully"
  else now ++ " [system] process exited with error: " ++ msg

/-- Completion observer registered by `wireProcessLoggingAndCleanup`
(server.js lines 69-89): on process exit, if the record is still present,
append a terminal system log entry and delete the record.  This is the only
code that ever deletes from `runningProjects`. -/
def exitObserver (r : Registry) (name : String) (ok : Bool) (msg now : String) :
    Registry :=
  match mapGet r name with
  | none => r
  | some st =>
    let st' : ProjRecord :=
      { st with logs := appendLog st.logs (exitLogLine now ok msg) }
    mapDelete (mapSet r name st') name

/-- Stream-data observer (server.js lines 58-67): a chunk arriving on
stdout/stderr of the subprocess appends a timestamped entry to the log
buffer of the record captured at spawn time.  The pid guard models the
capture: a chunk from an already-replaced process does not touch the
current record. -/
def dataObserver (r : Registry) (name : String) (pid : Nat)
    (tag chunk now : String) : Registry :=
  match mapGet r name with
  | none => r
  | some st =>
    if st.pid = pid then
      mapSet r name
        { st with logs := appendLog st.logs (now ++ " " ++ tag ++ " " ++ chunk) }
    else r

/-- Limit query parameter of `GET /projects/:name/logs` as received:
absent, present but not numeric, or a number. -/
inductive QueryLimit where
  | absent
  | nonNumeric
  | num (n : Int)
deriving DecidableEq, Repr

/-- `Number(req.query.limit) || 200` (server.js line 244): `NaN` (absent or
unparseable) and `0` are falsy and fall back to the default 200. -/
def effectiveLimit : QueryLimit → Int
  | .absent => 200
  | .nonNumeric => 200
  | .num n => if n = 0 then 200 else n

/-- JS `Array.prototype.slice(begin)`: a negative begin counts from the
end, clamped at 0; a nonnegative begin drops that many leading entries. -/
def jsSlice (l : List String) (start : Int) : List String :=
  if start < 0 then l.drop ((l.length + start).toNat)
  else l.drop start.toNat

/-- Responses of `GET /projects/:name/logs` (server.js lines 242-259). -/
inductive LogsResp where
  | invalidName
  | notRunning (name : String)
  | ok (name : String) (count : Nat) (logs : List String)
deriving DecidableEq, Repr

/-- HTTP status code attached to each logs response. -/
def LogsResp.statusCode : LogsResp → Nat
  | .invalidName => 400
  | .notRunning _ => 404
  | .ok _ _ _ => 200

/-- `GET /projects/:name/logs` handler (server.js lines 242-259): compute
the effective limit, validate the name, 404 when the project is not
running, then return `state.logs.slice(-Math.min(limit, MAX_LOG_LINES))`
with its length as `count`. -/
def logsHandler (r : Registry) (name? : Option String) (q : QueryLimit) :
    LogsResp :=
  let limit := effectiveLimit q
  match name? with
  | none => .invalidName
  | some name =>
    if ¬ validNameStr name then .invalidName
    else
      match mapGet r name with
      | none => .notRunning name
      | some st =>
        let logs := jsSlice st.logs (-(min limit (MAX_LOG_LINES : Int)))
        .ok name logs.length logs

/-- On-disk state seen by `POST /projects/create`: the template directories
and the project directories, each mapped to an abstract content value
(copying propagates the content, so "untouched contents" is expressible). -/
structure FsState where
  templates : List (String × Nat)
  projects : List (String × Nat)
deriving DecidableEq, Repr

/-- Outcome of `fs.cpSync` (server.js line 132). -/
inductive CopyOutcome where
  | success
  | failure
deriving DecidableEq, Repr

/-- Responses of `POST /projects/create` (server.js lines 111-138). -/
inductive CreateResp where
  | invalidName
  | templateNotFound (template : String)
  | alreadyExists (name : String) (projectPath : String)
  | created (name : String) (projectPath : String)
  | copyFailed
deriving DecidableEq, Repr

/-- HTTP status code attached to each create response. -/
def CreateResp.statusCode : CreateResp → Nat
  | .invalidName => 400
  | .templateNotFound _ => 404
  | .alreadyExists _ _ => 409
  | .created _ _ => 200
  | .copyFailed => 500

/-- Result of a create request: response plus the filesystem afterwards. -/
structure CreateOut where
  resp : CreateResp
  fs : FsState
deriving DecidableEq, Repr

/-- `POST /projects/create` handler (server.js lines 111-138): validate the
name, 404 when the template directory is missing, 409 when the project
directory already exists, otherwise copy the template tree into the project
directory.  A copy failure is caught and reported as 500; partial copies
are abstracted as leaving the project store unchanged. -/
def createHandler (fs : FsState) (name? : Option String) (template : String)
    (copy : CopyOutcome) : CreateOut :=
  match name? with
  | none => ⟨.invalidName, fs⟩
  | some name =>
    if ¬ validNameStr name then ⟨.invalidName, fs⟩
    else
      match mapGet fs.templates template with
      | none => ⟨.templateNotFound template, fs⟩
      | some tc =>
        if (mapGet fs.projects name).isSome then
          ⟨.alreadyExists name (getProjectPath name), fs⟩
        else
          match copy with
          | .success =>
            ⟨.created name (getProjectPath name),
              { fs with projects := mapSet fs.projects name tc }⟩
          | .failure => ⟨.copyFailed, fs⟩

/-- Every operation of the controller that can touch the `runningProjects`
registry, including the asynchronous observers.  Read-only routes
(`GET /health`, `GET /projects`, `GET /projects/running`,
`GET /projects/:name/logs`) are included as explicit no-writes. -/
inductive Op where
  | create (name? : Option String) (template : String) (copy : CopyOutcome)
  | start (b : StartBody) (env : StartEnv)
  | stop (name? : Option String) (env : StopEnv)
  | data (name : String) (pid : Nat) (tag chunk now : String)
  | exit (name : String) (ok : Bool) (msg now : String)
  | health
  | listProjects
  | listRunning
  | getLogs (name? : Option String) (q : QueryLimit)
deriving DecidableEq, Repr

/-- Effect of one operation on the registry.  `create` only touches the
filesystem; the four read routes touch nothing. -/
def step (r : Registry) : Op → Registry
  | .create _ _ _ => r
  | .start b env => (startHandler r b env).reg
  | .stop n env => (stopHandler r n env).reg
  | .data n pid tag chunk now => dataObserver r n pid tag chunk now
  | .exit n ok msg now => exitObserver r n ok msg now
  | .health => r
  | .listProjects => r
  | .listRunning => r
  | .getLogs _ _ => r


theorem startHandler_eq_noName (r : Registry) (b : StartBody) (env : StartEnv)
    (hb : b.name = none) :
    startHandler r b env = ⟨.invalidName, r⟩ := by
  simp [startHandler, hb]

theorem startHandler_eq_invalid (r : Registry) (b : StartBody) (env : StartEnv)
    (n : String) (hb : b.name = some n) (h1 : validNameStr n = false) :
    startHandler r b env = ⟨.invalidName, r⟩ := by
  simp [startHandler, hb, h1]

theorem startHandler_eq_already (r : Registry) (b : StartBody) (env : StartEnv)
    (n : String) (p : ProjRecord)
    (hb : b.name = some n) (h1 : validNameStr n = true)
    (hg : mapGet r n = some p) :
    startHandler r b env = ⟨.alreadyRunning n, r⟩ := by
  simp [startHandler, hb, h1, hg]

theorem startHandler_eq_badArgs (r : Registry) (b : StartBody) (env : StartEnv)
    (n : String) (hb : b.name = some n) (h1 : validNameStr n = true)
    (hg : mapGet r n = none) (ha : argsValid b.args = false) :
    startHandler r b env = ⟨.invalidArgs, r⟩ := by
  simp [startHandler, hb, h1, hg, ha]

theorem startHandler_eq_noDir (r : Registry) (b : StartBody) (env : StartEnv)
    (n : String) (hb : b.name = some n) (h1 : validNameStr n = true)
    (hg : mapGet r n = none) (ha : argsValid b.args = true)
    (hd : env.dirExists = false) :
    startHandler r b env = ⟨.dirNotFound (getProjectPath n), r⟩ := by
  simp [startHandler, hb, h1, hg, ha, hd]

theorem startHandler_eq_noManifest (r : Registry) (b : StartBody) (env : StartEnv)
    (n : String) (hb : b.name = some n) (h1 : validNameStr n = true)
    (hg : mapGet r n = none) (ha : argsValid b.args = true)
    (hd : env.dirExists = true)
    (hc : b.command.getD "npm" = "npm") (hm : env.manifestExists = false) :
    startHandler r b env = ⟨.noManifest (getProjectPath n), r⟩ := by
  simp [startHandler, hb, h1, hg, ha, hd, hc, hm]

theorem startHandler_eq_spawnFail (r : Registry) (b : StartBody) (env : StartEnv)
    (n : String) (msg : String)
    (hb : b.name = some n) (h1 : validNameStr n = true)
    (hg : mapGet r n = none) (ha : argsValid b.args = true)
    (hd : env.dirExists = true)
    (hnm : ¬ (b.command.getD "npm" = "npm" ∧ env.manifestExists = false))
    (hs : env.spawn = .fail msg) :
    startHandler r b env = ⟨.spawnFailed msg, r⟩ := by
  simp [startHandler, hb, h1, hg, ha, hd, hnm, hs]

/-- The record inserted on a successful start (server.js lines 177-189). -/
def startedRecord (n : String) (pid : Nat) (command : String)
    (args : List String) (startedAt : String) : ProjRecord :=
  { name := n, pid := pid, projectPath := getProjectPath n,
    command := command, args := args, startedAt := startedAt,
    status := .running,
    logs := [startLogLine startedAt command args] }

theorem startHandler_eq_started (r : Registry) (b : StartBody) (env : StartEnv)
    (n : String) (pid : Nat)
    (hb : b.name = some n) (h1 : validNameStr n = true)
    (hg : mapGet r n = none) (ha : argsValid b.args = true)
    (hd : env.dirExists = true)
    (hnm : ¬ (b.command.getD "npm" = "npm" ∧ env.manifestExists = false))
    (hs : env.spawn = .ok pid) :
    startHandler r b env =
      ⟨.started n pid env.now (b.command.getD "npm") (effArgs b.args)
          (getProjectPath n),
        mapSet r n
          (startedRecord n pid (b.command.getD "npm") (effArgs b.args) env.now)⟩ := by
  simp [startHandler, startedRecord, hb, h1, hg, ha, hd, hnm, hs]

/-- The record mutation performed by the stop handler
(server.js lines 223-224). -/
def stoppingRecord (st : ProjRecord) (now : String) : ProjRecord :=
  { st with status := .stopping, logs := appendLog st.logs (stopLogLine now) }

theorem stopHandler_eq_noName (r : Registry) (env : StopEnv) :
    stopHandler r none env = ⟨.invalidName, r, none⟩ := by
  simp [stopHandler]

theorem stopHandler_eq_invalid (r : Registry) (env : StopEnv) (n : String)
    (h1 : validNameStr n = false) :
    stopHandler r (some n) env = ⟨.invalidName, r, none⟩ := by
  simp [stopHandler, h1]

theorem stopHandler_eq_notRunning (r : Registry) (env : StopEnv) (n : String)
    (h1 : validNameStr n = true) (hg : mapGet r n = none) :
    stopHandler r (some n) env = ⟨.notRunning n, r, none⟩ := by
  simp [stopHandler, h1, hg]

theorem stopHandler_eq_stopped (r : Registry) (env : StopEnv) (n : String)
    (st : ProjRecord) (h1 : validNameStr n = true) (hg : mapGet r n = some st)
    (hk : env.killOk = true) :
    stopHandler r (some n) env =
      ⟨.stopped n st.pid, mapSet r n (stoppingRecord st env.now), some st.pid⟩ := by
  simp [stopHandler, stoppingRecord, h1, hg, hk]

theorem stopHandler_eq_killFailed (r : Registry) (env : StopEnv) (n : String)
    (st : ProjRecord) (h1 : validNameStr n = true) (hg : mapGet r n = some st)
    (hk : env.killOk = false) :
    stopHandler r (some n) env =
      ⟨.killFailed "kill threw", mapSet r n (stoppingRecord st env.now), none⟩ := by
  simp [stopHandler, stoppingRecord, h1, hg, hk]

theorem logsHandler_eq_noName (r : Registry) (q : QueryLimit) :
    logsHandler r none q = .invalidName := by
  simp [logsHandler]

theorem logsHandler_eq_invalid (r : Registry) (q : QueryLimit) (n : String)
    (h1 : validNameStr n = false) :
    logsHandler r (some n) q = .invalidName := by
  simp [logsHandler, h1]

theorem logsHandler_eq_notRunning (r : Registry) (q : QueryLimit) (n : String)
    (h1 : validNameStr n = true) (hg : mapGet r n = none) :
    logsHandler r (some n) q = .notRunning n := by
  simp [logsHandler, h1, hg]

theorem logsHandler_eq_ok (r : Registry) (q : QueryLimit) (n : String)
    (st : ProjRecord) (h1 : validNameStr n = true) (hg : mapGet r n = some st) :
    logsHandler r (some n) q =
      .ok n (jsSlice st.logs (-(min (effectiveLimit q) (MAX_LOG_LINES : Int)))).length
        (jsSlice st.logs (-(min (effectiveLimit q) (MAX_LOG_LINES : Int)))) := by
  simp [logsHandler, h1, hg]

theorem createHandler_eq_noName (fs : FsState) (t : String) (c : CopyOutcome) :
    createHandler fs none t c = ⟨.invalidName, fs⟩ := by
  simp [createHandler]

theorem createHandler_eq_invalid (fs : FsState) (t : String) (c : CopyOutcome)
    (n : String) (h1 : validNameStr n = false) :
    createHandler fs (some n) t c = ⟨.invalidName, fs⟩ := by
  simp [createHandler, h1]

theorem createHandler_eq_noTemplate (fs : FsState) (t : String) (c : CopyOutcome)
    (n : String) (h1 : validNameStr n = true)
    (ht : mapGet fs.templates t = none) :
    createHandler fs (some n) t c = ⟨.templateNotFound t, fs⟩ := by
  simp [createHandler, h1, ht]

theorem createHandler_eq_exists (fs : FsState) (t : String) (c : CopyOutcome)
    (n : String) (tc pc : Nat) (h1 : validNameStr n = true)
    (ht : mapGet fs.templates t = some tc)
    (hp : mapGet fs.projects n = some pc) :
    createHandler fs (some n) t c =
      ⟨.alreadyExists n (getProjectPath n), fs⟩ := by
  simp [createHandler, h1, ht, hp]

theorem createHandler_eq_created (fs : FsState) (t : String)
    (n : String) (tc : Nat) (h1 : validNameStr n = true)
    (ht : mapGet fs.templates t = some tc)
    (hp : mapGet fs.projects n = none) :
    createHandler fs (some n) t .success =
      ⟨.created n (getProjectPath n),
        { fs with projects := mapSet fs.projects n tc }⟩ := by
  simp [createHandler, h1, ht, hp]

theorem createHandler_eq_copyFailed (fs : FsState) (t : String)
    (n : String) (tc : Nat) (h1 : validNameStr n = true)
    (ht : mapGet fs.templates t = some tc)
    (hp : mapGet fs.projects n = none) :
    createHandler fs (some n) t .failure = ⟨.copyFailed, fs⟩ := by
  simp [createHandler, h1, ht, hp]

theorem startHandler_mapGet_preserved (r : Registry) (b : StartBody)
    (env : StartEnv) (name : String) (p : ProjRecord)
    (h : mapGet r name = some p) :
    mapGet (startHandler r b env).reg name = some p := by
  cases hb : b.name with
  | none => rw [startHandler_eq_noName r b env hb]; exact h
  | some n =>
      cases hv : validNameStr n with
      | false => rw [startHandler_eq_invalid r b env n hb hv]; exact h
      | true =>
          cases hg : mapGet r n with
          | some pd => rw [startHandler_eq_already r b env n pd hb hv hg]; exact h
          | none =>
              cases ha : argsValid b.args with
              | false => rw [startHandler_eq_badArgs r b env n hb hv hg ha]; exact h
              | true =>
                  cases hd : env.dirExists with
                  | false => rw [startHandler_eq_noDir r b env n hb hv hg ha hd]; exact h
                  | true =>
                      by_cases hnm : (b.command.getD "npm" = "npm"
                          ∧ env.manifestExists = false)
                      · rw [startHandler_eq_noManifest r b env n hb hv hg ha hd
                          hnm.1 hnm.2]
                        exact h
                      · cases hs : env.spawn with
                        | fail msg =>
                            rw [startHandler_eq_spawnFail r b env n msg hb hv hg
                              ha hd hnm hs]
                            exact h
                        | ok pid =>
                            rw [startHandler_eq_started r b env n pid hb hv hg
                              ha hd hnm hs]
                            have hne : ¬ name = n := by
                              intro he
                              rw [he, hg] at h
                              exact Option.noConfusion h
                            dsimp only
                            rw [mapGet_mapSet]
                            simp [hne, h]

theorem stopHandler_mapGet (r : Registry) (n? : Option String) (env : StopEnv)
    (name : String) (p : ProjRecord) (h : mapGet r name = some p) :
    ∃ q, mapGet (stopHandler r n? env).reg name = some q
      ∧ (q = p ∨ q = stoppingRecord p env.now) := by
  cases n? with
  | none => rw [stopHandler_eq_noName]; exact ⟨p, h, Or.inl rfl⟩
  | some n =>
      cases hv : validNameStr n with
      | false => rw [stopHandler_eq_invalid r env n hv]; exact ⟨p, h, Or.inl rfl⟩
      | true =>
          cases hg : mapGet r n with
          | none =>
              rw [stopHandler_eq_notRunning r env n hv hg]
              exact ⟨p, h, Or.inl rfl⟩
          | some st =>
              have hreg : (stopHandler r (some n) env).reg =
                  mapSet r n (stoppingRecord st env.now) := by
                cases hk : env.killOk with
                | true => rw [stopHandler_eq_stopped r env n st hv hg hk]
                | false => rw [stopHandler_eq_killFailed r env n st hv hg hk]
              rw [hreg, mapGet_mapSet]
              by_cases hne : name = n
              · subst hne
                rw [h] at hg
                injection hg with hpq
                subst hpq
                exact ⟨stoppingRecord p env.now, by simp, Or.inr rfl⟩
              · exact ⟨p, by simp [hne, h], Or.inl rfl⟩

theorem dataObserver_mapGet (r : Registry) (n : String) (pid : Nat)
    (tag chunk now : String) (name : String) (p : ProjRecord)
    (h : mapGet r name = some p) :
    ∃ q, mapGet (dataObserver r n pid tag chunk now) name = some q
      ∧ q.status = p.status := by
  unfold dataObserver
  cases hg : mapGet r n with
  | none => exact ⟨p, h, rfl⟩
  | some st =>
      dsimp only
      by_cases hp : st.pid = pid
      · rw [if_pos hp, mapGet_mapSet]
        by_cases hne : name = n
        · subst hne
          rw [h] at hg
          injection hg with hpq
          subst hpq
          exact ⟨{ p with logs := appendLog p.logs (now ++ " " ++ tag ++ " " ++ chunk) },
            by simp, rfl⟩
        · exact ⟨p, by simp [hne, h], rfl⟩
      · rw [if_neg hp]
        exact ⟨p, h, rfl⟩

theorem exitObserver_mapGet_ne (r : Registry) (n : String) (ok : Bool)
    (msg now : String) (name : String) (hne : name ≠ n) :
    mapGet (exitObserver r n ok msg now) name = mapGet r name := by
  unfold exitObserver
  cases hg : mapGet r n with
  | none => rfl
  | some st =>
      dsimp only
      rw [mapGet_mapDelete_ne _ _ _ hne, mapGet_mapSet]
      simp [hne]

theorem exitObserver_mapGet_self (r : Registry) (n : String) (ok : Bool)
    (msg now : String) (hnd : (r.map Prod.fst).Nodup) :
    mapGet (exitObserver r n ok msg now) n = none := by
  unfold exitObserver
  cases hg : mapGet r n with
  | none => exact hg
  | some st =>
      dsimp only
      exact mapGet_mapDelete_self _ _ (nodup_map_fst_mapSet _ _ _ hnd)

theorem startHandler_reg_cases (r : Registry) (b : StartBody) (env : StartEnv) :
    (startHandler r b env).reg = r
      ∨ ∃ n st, (startHandler r b env).reg = mapSet r n st := by
  cases hb : b.name with
  | none => rw [startHandler_eq_noName r b env hb]; exact Or.inl rfl
  | some n =>
      cases hv : validNameStr n with
      | false => rw [startHandler_eq_invalid r b env n hb hv]; exact Or.inl rfl
      | true =>
          cases hg : mapGet r n with
          | some pd =>
              rw [startHandler_eq_already r b env n pd hb hv hg]
              exact Or.inl rfl
          | none =>
              cases ha : argsValid b.args with
              | false =>
                  rw [startHandler_eq_badArgs r b env n hb hv hg ha]
                  exact Or.inl rfl
              | true =>
                  cases hd : env.dirExists with
                  | false =>
                      rw [startHandler_eq_noDir r b env n hb hv hg ha hd]
                      exact Or.inl rfl
                  | true =>
                      by_cases hnm : (b.command.getD "npm" = "npm"
                          ∧ env.manifestExists = false)
                      · rw [startHandler_eq_noManifest r b env n hb hv hg ha hd
                          hnm.1 hnm.2]
                        exact Or.inl rfl
                      · cases hs : env.spawn with
                        | fail msg =>
                            rw [startHandler_eq_spawnFail r b env n msg hb hv hg
                              ha hd hnm hs]
                            exact Or.inl rfl
                        | ok pid =>
                            rw [startHandler_eq_started r b env n pid hb hv hg
                              ha hd hnm hs]
                            exact Or.inr ⟨n, _, rfl⟩

theorem stopHandler_reg_cases (r : Registry) (n? : Option String) (env : StopEnv) :
    (stopHandler r n? env).reg = r
      ∨ ∃ n st, (stopHandler r n? env).reg = mapSet r n st := by
  cases n? with
  | none => rw [stopHandler_eq_noName]; exact Or.inl rfl
  | some n =>
      cases hv : validNameStr n with
      | false => rw [stopHandler_eq_invalid r env n hv]; exact Or.inl rfl
      | true =>
          cases hg : mapGet r n with
          | none =>
              rw [stopHandler_eq_notRunning r env n hv hg]
              exact Or.inl rfl
          | some st =>
              cases hk : env.killOk with
              | true =>
                  rw [stopHandler_eq_stopped r env n st hv hg hk]
                  exact Or.inr ⟨n, _, rfl⟩
              | false =>
                  rw [stopHandler_eq_killFailed r env n st hv hg hk]
                  exact Or.inr ⟨n, _, rfl⟩

theorem dataObserver_reg_cases (r : Registry) (n : String) (pid : Nat)
    (tag chunk now : String) :
    dataObserver r n pid tag chunk now = r
      ∨ ∃ m st, dataObserver r n pid tag chunk now = mapSet r m st := by
  unfold dataObserver
  cases hg : mapGet r n with
  | none => exact Or.inl rfl
  | some st =>
      dsimp only
      by_cases hp : st.pid = pid
      · rw [if_pos hp]
        exact Or.inr ⟨n, _, rfl⟩
      · rw [if_neg hp]
        exact Or.inl rfl

theorem step_nodup (r : Registry) (op : Op) (h : (r.map Prod.fst).Nodup) :
    ((step r op).map Prod.fst).Nodup := by
  cases op with
  | create n? t c => exact h
  | start b env =>
      rcases startHandler_reg_cases r b env with heq | ⟨n, st, heq⟩
      · rw [step, heq]; exact h
      · rw [step, heq]; exact nodup_map_fst_mapSet _ _ _ h
  | stop n? env =>
      rcases stopHandler_reg_cases r n? env with heq | ⟨n, st, heq⟩
      · rw [step, heq]; exact h
      · rw [step, heq]; exact nodup_map_fst_mapSet _ _ _ h
  | data n pid tag chunk now =>
      rcases dataObserver_reg_cases r n pid tag chunk now with heq | ⟨m, st, heq⟩
      · rw [step, heq]; exact h
      · rw [step, heq]; exact nodup_map_fst_mapSet _ _ _ h
  | exit n ok msg now =>
      rw [step]
      unfold exitObserver
      cases hg : mapGet r n with
      | none => exact h
      | some st =>
          dsimp only
          exact nodup_map_fst_mapDelete _ _ (nodup_map_fst_mapSet _ _ _ h)
  | health => exact h
  | listProjects => exact h
  | listRunning => exact h
  | getLogs n? q => exact h

theorem filter_key_length_one {α : Type} (r : List (String × α)) (n : String)
    (v : α) (hnd : (r.map Prod.fst).Nodup) (h : mapGet r n = some v) :
    (r.filter (fun e => e.1 = n)).length = 1 := by
  induction r with
  | nil => exact Option.noConfusion h
  | cons e t ih =>
      simp only [List.map_cons, List.nodup_cons] at hnd
      by_cases he : e.1 = n
      · have hnot : n ∉ t.map Prod.fst := he ▸ hnd.1
        have hnil : t.filter (fun e => e.1 = n) = [] := by
          rw [List.filter_eq_nil_iff]
          intro a ha hp
          have : (a.1 = n) := by simpa using hp
          exact hnot (this ▸ List.mem_map_of_mem Prod.fst ha)
        simp [List.filter_cons, he, hnil]
      · simp only [mapGet, if_neg he] at h
        simp [List.filter_cons, he, ih hnd.2 h]

/-- A concrete record used by witnesses: a project in Running state. -/
def demoRunRec : ProjRecord :=
  { name := "demo", pid := 42, projectPath := getProjectPath "demo",
    command := "npm", args := ["start"], startedAt := "t0",
    status := .running, logs := ["t0 [system] started command: npm start"] }

/-- A concrete record used by witnesses: a project already in Stopping
state. -/
def demoStopRec : ProjRecord :=
  { name := "demo", pid := 42, projectPath := getProjectPath "demo",
    command := "npm", args := ["start"], startedAt := "t0",
    status := .stopping, logs := ["t0 [system] started command: npm start"] }

/-- C1: once a record for a name is in the registry, the only operation
whose step can remove it is the process-exit observer for that very name;
a stop request (for any target) leaves the record present; and a record
whose status is Stopping keeps status Stopping under every operation that
leaves it present.  Key-uniqueness of the registry is preserved. -/
theorem record_removal_only_by_exit (r : Registry) (name : String)
    (p : ProjRecord) (op : Op)
    (hnd : (r.map Prod.fst).Nodup) (h : mapGet r name = some p) :
    (mapGet (step r op) name = none → ∃ ok msg now, op = Op.exit name ok msg now)
    ∧ (∀ n? env, ∃ q, mapGet (step r (Op.stop n? env)) name = some q)
    ∧ (p.status = Status.stopping →
        ∀ q, mapGet (step r op) name = some q → q.status = Status.stopping)
    ∧ ((step r op).map Prod.fst).Nodup := by
  refine ⟨?_, ?_, ?_, step_nodup r op hnd⟩
  · intro hn
    cases op with
    | create n? t c =>
        simp only [step] at hn
        rw [h] at hn
        exact Option.noConfusion hn
    | start b env =>
        simp only [step] at hn
        rw [startHandler_mapGet_preserved r b env name p h] at hn
        exact Option.noConfusion hn
    | stop n? env =>
        simp only [step] at hn
        rcases stopHandler_mapGet r n? env name p h with ⟨q, hq, _⟩
        rw [hq] at hn
        exact Option.noConfusion hn
    | data n pid tag chunk now =>
        simp only [step] at hn
        rcases dataObserver_mapGet r n pid tag chunk now name p h with ⟨q, hq, _⟩
        rw [hq] at hn
        exact Option.noConfusion hn
    | exit n ok msg now =>
        by_cases hne : name = n
        · subst hne
          exact ⟨ok, msg, now, rfl⟩
        · simp only [step] at hn
          rw [exitObserver_mapGet_ne r n ok msg now name hne, h] at hn
          exact Option.noConfusion hn
    | health =>
        simp only [step] at hn
        rw [h] at hn
        exact Option.noConfusion hn
    | listProjects =>
        simp only [step] at hn
        rw [h] at hn
        exact Option.noConfusion hn
    | listRunning =>
        simp only [step] at hn
        rw [h] at hn
        exact Option.noConfusion hn
    | getLogs n? q =>
        simp only [step] at hn
        rw [h] at hn
        exact Option.noConfusion hn
  · intro n? env
    simp only [step]
    rcases stopHandler_mapGet r n? env name p h with ⟨q, hq, _⟩
    exact ⟨q, hq⟩
  · intro hst q hq
    cases op with
    | create n? t c =>
        simp only [step] at hq
        rw [h] at hq
        injection hq with e
        exact e ▸ hst
    | start b env =>
        simp only [step] at hq
        rw [startHandler_mapGet_preserved r b env name p h] at hq
        injection hq with e
        exact e ▸ hst
    | stop n? env =>
        simp only [step] at hq
        rcases stopHandler_mapGet r n? env name p h with ⟨q', hq', hcase⟩
        rw [hq'] at hq
        injection hq with e
        rcases hcase with he | he
        · rw [← e, he]
          exact hst
        · rw [← e, he]
          rfl
    | data n pid tag chunk now =>
        simp only [step] at hq
        rcases dataObserver_mapGet r n pid tag chunk now name p h with ⟨q', hq', hstat⟩
        rw [hq'] at hq
        injection hq with e
        rw [← e, hstat]
        exact hst
    | exit n ok msg now =>
        by_cases hne : name = n
        · subst hne
          simp only [step] at hq
          rw [exitObserver_mapGet_self r name ok msg now hnd] at hq
          exact Option.noConfusion hq
        · simp only [step] at hq
          rw [exitObserver_mapGet_ne r n ok msg now name hne, h] at hq
          injection hq with e
          exact e ▸ hst
    | health =>
        simp only [step] at hq
        rw [h] at hq
        injection hq with e
        exact e ▸ hst
    | listProjects =>
        simp only [step] at hq
        rw [h] at hq
        injection hq with e
        exact e ▸ hst
    | listRunning =>
        simp only [step] at hq
        rw [h] at hq
        injection hq with e
        exact e ▸ hst
    | getLogs n? q2 =>
        simp only [step] at hq
        rw [h] at hq
        injection hq with e
        exact e ▸ hst

/-- Witness for C1 at a concrete registry holding one Stopping record and a
concrete operation. -/
theorem record_removal_only_by_exit_witness :
    ((([("demo", demoStopRec)] : Registry).map Prod.fst).Nodup
        ∧ mapGet [("demo", demoStopRec)] "demo" = some demoStopRec)
      ∧ ((mapGet (step [("demo", demoStopRec)] Op.health) "demo" = none →
            ∃ ok msg now, Op.health = Op.exit "demo" ok msg now)
          ∧ (∀ n? env, ∃ q,
              mapGet (step [("demo", demoStopRec)] (Op.stop n? env)) "demo" = some q)
          ∧ (demoStopRec.status = Status.stopping →
              ∀ q, mapGet (step [("demo", demoStopRec)] Op.health) "demo" = some q →
                q.status = Status.stopping)
          ∧ (((step [("demo", demoStopRec)] Op.health).map Prod.fst).Nodup)) :=
  ⟨⟨by simp, rfl⟩,
    record_removal_only_by_exit [("demo", demoStopRec)] "demo" demoStopRec
      Op.health (by simp) rfl⟩

/-- C2: a start request for a name that already has a record in the
registry is rejected with `alreadyRunning` (HTTP 409), the registry is
returned unchanged, and it still holds exactly one record for that name. -/
theorem start_twice_rejected (r : Registry) (name : String) (p : ProjRecord)
    (b : StartBody) (env : StartEnv)
    (hnd : (r.map Prod.fst).Nodup)
    (hb : b.name = some name) (hv : validNameStr name = true)
    (h : mapGet r name = some p) :
    startHandler r b env = ⟨.alreadyRunning name, r⟩
      ∧ (startHandler r b env).resp.statusCode = 409
      ∧ (r.filter (fun e => e.1 = name)).length = 1 := by
  have heq := startHandler_eq_already r b env name p hb hv h
  refine ⟨heq, ?_, filter_key_length_one r name p hnd h⟩
  rw [heq]
  rfl

/-- Witness for C2: a second start of `"demo"` while its record is present
is rejected and the registry is untouched. -/
theorem start_twice_rejected_witness :
    ((([("demo", demoRunRec)] : Registry).map Prod.fst).Nodup
        ∧ (⟨some "demo", none, .absent⟩ : StartBody).name = some "demo"
        ∧ validNameStr "demo" = true
        ∧ mapGet [("demo", demoRunRec)] "demo" = some demoRunRec)
      ∧ (startHandler [("demo", demoRunRec)] ⟨some "demo", none, .absent⟩
            ⟨true, true, .ok 7, "t1"⟩ =
          ⟨.alreadyRunning "demo", [("demo", demoRunRec)]⟩
        ∧ (startHandler [("demo", demoRunRec)] ⟨some "demo", none, .absent⟩
            ⟨true, true, .ok 7, "t1"⟩).resp.statusCode = 409
        ∧ (([("demo", demoRunRec)] : Registry).filter
            (fun e => e.1 = "demo")).length = 1) :=
  ⟨⟨by simp, rfl, by decide, rfl⟩,
    start_twice_rejected [("demo", demoRunRec)] "demo" demoRunRec
      ⟨some "demo", none, .absent⟩ ⟨true, true, .ok 7, "t1"⟩
      (by simp) rfl (by decide) rfl⟩

/-- Every non-`started` outcome of the start handler. -/
def startFailed : StartResp → Bool
  | .started _ _ _ _ _ _ => false
  | _ => true

/-- C5: whenever a start request fails — invalid name, already running,
invalid args, missing directory, missing manifest, or a spawn throw — the
registry is returned exactly as it was: no reservation survives a failed
start, and all validation failures happen before any mutation. -/
theorem start_failure_leaves_registry (r : Registry) (b : StartBody)
    (env : StartEnv) (h : startFailed (startHandler r b env).resp = true) :
    (startHandler r b env).reg = r := by
  cases hb : b.name with
  | none => rw [startHandler_eq_noName r b env hb]
  | some n =>
      cases hv : validNameStr n with
      | false => rw [startHandler_eq_invalid r b env n hb hv]
      | true =>
          cases hg : mapGet r n with
          | some pd => rw [startHandler_eq_already r b env n pd hb hv hg]
          | none =>
              cases ha : argsValid b.args with
              | false => rw [startHandler_eq_badArgs r b env n hb hv hg ha]
              | true =>
                  cases hd : env.dirExists with
                  | false => rw [startHandler_eq_noDir r b env n hb hv hg ha hd]
                  | true =>
                      by_cases hnm : (b.command.getD "npm" = "npm"
                          ∧ env.manifestExists = false)
                      · rw [startHandler_eq_noManifest r b env n hb hv hg ha hd
                          hnm.1 hnm.2]
                      · cases hs : env.spawn with
                        | fail msg =>
                            rw [startHandler_eq_spawnFail r b env n msg hb hv hg
                              ha hd hnm hs]
                        | ok pid =>
                            rw [startHandler_eq_started r b env n pid hb hv hg
                              ha hd hnm hs] at h
                            exact absurd h (by simp [startFailed])

/-- Witness for C5: a spawn throw on an otherwise valid request leaves the
empty registry empty. -/
theorem start_failure_leaves_registry_witness :
    startFailed (startHandler [] ⟨some "demo", none, .absent⟩
        ⟨true, true, .fail "ENOENT", "t1"⟩).resp = true
      ∧ (startHandler [] ⟨some "demo", none, .absent⟩
          ⟨true, true, .fail "ENOENT", "t1"⟩).reg = [] :=
  ⟨by decide,
    start_failure_leaves_registry [] ⟨some "demo", none, .absent⟩
      ⟨true, true, .fail "ENOENT", "t1"⟩ (by decide)⟩

/-- C7: under the earlier start preconditions (valid free name, valid args,
existing project directory), the handler answers the `noManifest` error
(HTTP 400) exactly when the effective command is `"npm"` and no
`package.json` exists; with any other command and a successful spawn the
start succeeds without consulting the manifest. -/
theorem manifest_required_iff_npm (r : Registry) (b : StartBody)
    (env : StartEnv) (n : String)
    (hb : b.name = some n) (hv : validNameStr n = true)
    (hg : mapGet r n = none) (ha : argsValid b.args = true)
    (hd : env.dirExists = true) :
    ((startHandler r b env).resp = .noManifest (getProjectPath n) ↔
        (b.command.getD "npm" = "npm" ∧ env.manifestExists = false))
      ∧ (StartResp.noManifest (getProjectPath n)).statusCode = 400
      ∧ (b.command.getD "npm" ≠ "npm" → ∀ pid, env.spawn = .ok pid →
          (startHandler r b env).resp =
            .started n pid env.now (b.command.getD "npm") (effArgs b.args)
              (getProjectPath n)) := by
  refine ⟨⟨?_, ?_⟩, rfl, ?_⟩
  · intro hresp
    by_contra hnm
    cases hs : env.spawn with
    | fail msg =>
        rw [startHandler_eq_spawnFail r b env n msg hb hv hg ha hd hnm hs] at hresp
        exact StartResp.noConfusion hresp
    | ok pid =>
        rw [startHandler_eq_started r b env n pid hb hv hg ha hd hnm hs] at hresp
        exact StartResp.noConfusion hresp
  · intro hnm
    rw [startHandler_eq_noManifest r b env n hb hv hg ha hd hnm.1 hnm.2]
  · intro hc pid hs
    have hnm : ¬ (b.command.getD "npm" = "npm" ∧ env.manifestExists = false) :=
      fun hand => hc hand.1
    rw [startHandler_eq_started r b env n pid hb hv hg ha hd hnm hs]

/-- Witness for C7: starting `"demo"` with command `"node"` and no manifest
succeeds, and the `noManifest` response occurs only for `"npm"`. -/
theorem manifest_required_iff_npm_witness :
    ((⟨some "demo", some "node", .absent⟩ : StartBody).name = some "demo"
        ∧ validNameStr "demo" = true
        ∧ mapGet ([] : Registry) "demo" = none
        ∧ argsValid (⟨some "demo", some "node", .absent⟩ : StartBody).args = true
        ∧ (⟨true, false, .ok 9, "t2"⟩ : StartEnv).dirExists = true)
      ∧ (((startHandler [] ⟨some "demo", some "node", .absent⟩
              ⟨true, false, .ok 9, "t2"⟩).resp =
            .noManifest (getProjectPath "demo") ↔
              ((⟨some "demo", some "node", .absent⟩ : StartBody).command.getD "npm"
                  = "npm"
                ∧ (⟨true, false, .ok 9, "t2"⟩ : StartEnv).manifestExists = false))
          ∧ (StartResp.noManifest (getProjectPath "demo")).statusCode = 400
          ∧ ((⟨some "demo", some "node", .absent⟩ : StartBody).command.getD "npm"
                ≠ "npm" →
              ∀ pid, (⟨true, false, .ok 9, "t2"⟩ : StartEnv).spawn = .ok pid →
                (startHandler [] ⟨some "demo", some "node", .absent⟩
                    ⟨true, false, .ok 9, "t2"⟩).resp =
                  .started "demo" pid "t2" "node" ["start"]
                    (getProjectPath "demo"))) :=
  ⟨⟨rfl, by decide, rfl, by decide, rfl⟩,
    manifest_required_iff_npm [] ⟨some "demo", some "node", .absent⟩
      ⟨true, false, .ok 9, "t2"⟩ "demo" rfl (by decide) rfl (by decide) rfl⟩

/-- C9: a stop request is accepted whenever a record is present — also when
its status is already Stopping: it answers 200 again, the status stays
Stopping, one more stop-request system entry is appended to the buffer, and
SIGTERM is sent again to the same pid.  `notRunning` (HTTP 404) is answered
exactly when no record exists. -/
theorem stop_repeatable_while_present (r : Registry) (name : String)
    (env : StopEnv) (hv : validNameStr name = true) (hk : env.killOk = true) :
    ((stopHandler r (some name) env).resp = .notRunning name ↔
        mapGet r name = none)
      ∧ (StopResp.notRunning name).statusCode = 404
      ∧ ∀ p, mapGet r name = some p → p.status = Status.stopping →
          (stopHandler r (some name) env).resp = .stopped name p.pid
          ∧ (stopHandler r (some name) env).resp.statusCode = 200
          ∧ (stopHandler r (some name) env).signaled = some p.pid
          ∧ mapGet (stopHandler r (some name) env).reg name =
              some (stoppingRecord p env.now)
          ∧ (stoppingRecord p env.now).status = Status.stopping
          ∧ (stoppingRecord p env.now).logs =
              appendLog p.logs (stopLogLine env.now) := by
  refine ⟨⟨?_, ?_⟩, rfl, ?_⟩
  · intro hresp
    cases hg : mapGet r name with
    | none => rfl
    | some st =>
        rw [stopHandler_eq_stopped r env name st hv hg hk] at hresp
        exact StopResp.noConfusion hresp
  · intro hg
    rw [stopHandler_eq_notRunning r env name hv hg]
  · intro p hg hst
    have heq := stopHandler_eq_stopped r env name p hv hg hk
    rw [heq]
    refine ⟨rfl, rfl, rfl, ?_, rfl, rfl⟩
    dsimp only
    rw [mapGet_mapSet]
    simp

/-- Witness for C9: stopping `"demo"` while its record is already Stopping
succeeds again and keeps the record Stopping. -/
theorem stop_repeatable_while_present_witness :
    (validNameStr "demo" = true ∧ (⟨"t3", true⟩ : StopEnv).killOk = true)
      ∧ (((stopHandler [("demo", demoStopRec)] (some "demo") ⟨"t3", true⟩).resp =
            .notRunning "demo" ↔
            mapGet [("demo", demoStopRec)] "demo" = none)
        ∧ (StopResp.notRunning "demo").statusCode = 404
        ∧ ∀ p, mapGet [("demo", demoStopRec)] "demo" = some p →
            p.status = Status.stopping →
            (stopHandler [("demo", demoStopRec)] (some "demo") ⟨"t3", true⟩).resp =
              .stopped "demo" p.pid
            ∧ (stopHandler [("demo", demoStopRec)] (some "demo")
                ⟨"t3", true⟩).resp.statusCode = 200
            ∧ (stopHandler [("demo", demoStopRec)] (some "demo")
                ⟨"t3", true⟩).signaled = some p.pid
            ∧ mapGet (stopHandler [("demo", demoStopRec)] (some "demo")
                ⟨"t3", true⟩).reg "demo" = some (stoppingRecord p "t3")
            ∧ (stoppingRecord p "t3").status = Status.stopping
            ∧ (stoppingRecord p "t3").logs =
                appendLog p.logs (stopLogLine "t3")) :=
  ⟨⟨by decide, rfl⟩,
    stop_repeatable_while_present [("demo", demoStopRec)] "demo" ⟨"t3", true⟩
      (by decide) rfl⟩

theorem jsSlice_neg (l : List String) (m : Nat) (hm : 0 < m) :
    jsSlice l (-(m : Int)) = l.drop (l.length - m) := by
  unfold jsSlice
  rw [if_pos (by omega)]
  congr 1
  omega

theorem effectiveLimit_num_pos (L : Nat) (hL : 0 < L) :
    effectiveLimit (.num (L : Int)) = (L : Int) := by
  show (if (L : Int) = 0 then 200 else (L : Int)) = (L : Int)
  rw [if_neg (by omega)]

/-- C4: for a running project with `count` buffered entries and a positive
requested limit `L`, the logs endpoint returns exactly
`min(L, N, count)` entries (`N = 500` the buffer capacity), and they are
the most recent entries in original order (a suffix of the buffer); with
the limit absent the default is 200. -/
theorem logs_return_most_recent (r : Registry) (name : String) (p : ProjRecord)
    (L : Nat) (hL : 0 < L) (hv : validNameStr name = true)
    (h : mapGet r name = some p) :
    logsHandler r (some name) (.num (L : Int)) =
        .ok name (min L (min MAX_LOG_LINES p.logs.length))
          (p.logs.drop (p.logs.length - min L MAX_LOG_LINES))
      ∧ p.logs =
          p.logs.take (p.logs.length - min L MAX_LOG_LINES)
            ++ p.logs.drop (p.logs.length - min L MAX_LOG_LINES)
      ∧ logsHandler r (some name) .absent =
          .ok name (min 200 p.logs.length) (p.logs.drop (p.logs.length - 200)) := by
  have hmax : MAX_LOG_LINES = 500 := rfl
  have hpos : 0 < min L MAX_LOG_LINES := by omega
  have hmin_cast : min ((L : Nat) : Int) ((MAX_LOG_LINES : Nat) : Int) =
      ((min L MAX_LOG_LINES : Nat) : Int) := (Nat.cast_min L MAX_LOG_LINES).symm
  refine ⟨?_, (List.take_append_drop _ _).symm, ?_⟩
  · rw [logsHandler_eq_ok r (.num (L : Int)) name p hv h,
      effectiveLimit_num_pos L hL, hmin_cast, jsSlice_neg _ _ hpos]
    have hlen : (p.logs.drop (p.logs.length - min L MAX_LOG_LINES)).length =
        min L (min MAX_LOG_LINES p.logs.length) := by
      rw [List.length_drop]
      omega
    rw [hlen]
  · rw [logsHandler_eq_ok r .absent name p hv h]
    have hma : -(min (effectiveLimit QueryLimit.absent) ((MAX_LOG_LINES : Nat) : Int)) =
        -(((200 : Nat) : Int)) := by decide
    rw [hma, jsSlice_neg p.logs 200 (by omega)]
    have hlen : (p.logs.drop (p.logs.length - 200)).length =
        min 200 p.logs.length := by
      rw [List.length_drop]
      omega
    rw [hlen]

/-- Witness for C4 at a concrete registry and limit 2. -/
theorem logs_return_most_recent_witness :
    (0 < 2 ∧ validNameStr "demo" = true
        ∧ mapGet [("demo", demoStopRec)] "demo" = some demoStopRec)
      ∧ (logsHandler [("demo", demoStopRec)] (some "demo") (.num ((2 : Nat) : Int)) =
            .ok "demo" (min 2 (min MAX_LOG_LINES demoStopRec.logs.length))
              (demoStopRec.logs.drop
                (demoStopRec.logs.length - min 2 MAX_LOG_LINES))
          ∧ demoStopRec.logs =
              demoStopRec.logs.take
                  (demoStopRec.logs.length - min 2 MAX_LOG_LINES)
                ++ demoStopRec.logs.drop
                  (demoStopRec.logs.length - min 2 MAX_LOG_LINES)
          ∧ logsHandler [("demo", demoStopRec)] (some "demo") .absent =
              .ok "demo" (min 200 demoStopRec.logs.length)
                (demoStopRec.logs.drop (demoStopRec.logs.length - 200))) :=
  ⟨⟨by decide, by decide, rfl⟩,
    logs_return_most_recent [("demo", demoStopRec)] "demo" demoStopRec 2
      (by decide) (by decide) rfl⟩

/-- C10: a `limit` query value that is absent, non-numeric, or `0` falls
back to the default 200; in particular `limit=0` returns up to 200 entries,
not zero. -/
theorem limit_zero_default (r : Registry) (name : String) (p : ProjRecord)
    (hv : validNameStr name = true) (h : mapGet r name = some p) :
    effectiveLimit .absent = 200
      ∧ effectiveLimit .nonNumeric = 200
      ∧ effectiveLimit (.num 0) = 200
      ∧ logsHandler r (some name) (.num 0) = logsHandler r (some name) (.num 200)
      ∧ logsHandler r (some name) (.num 0) =
          .ok name (min 200 p.logs.length) (p.logs.drop (p.logs.length - 200)) := by
  have hsame : effectiveLimit (.num 0) = effectiveLimit (.num 200) := by decide
  refine ⟨rfl, rfl, rfl, ?_, ?_⟩
  · rw [logsHandler_eq_ok r (.num 0) name p hv h,
      logsHandler_eq_ok r (.num 200) name p hv h, hsame]
  · rw [logsHandler_eq_ok r (.num 0) name p hv h]
    have hma : -(min (effectiveLimit (QueryLimit.num 0)) ((MAX_LOG_LINES : Nat) : Int)) =
        -(((200 : Nat) : Int)) := by decide
    rw [hma, jsSlice_neg p.logs 200 (by omega)]
    have hlen : (p.logs.drop (p.logs.length - 200)).length =
        min 200 p.logs.length := by
      rw [List.length_drop]
      omega
    rw [hlen]

/-- Witness for C10 at a concrete registry. -/
theorem limit_zero_default_witness :
    (validNameStr "demo" = true
        ∧ mapGet [("demo", demoRunRec)] "demo" = some demoRunRec)
      ∧ (effectiveLimit .absent = 200
          ∧ effectiveLimit .nonNumeric = 200
          ∧ effectiveLimit (.num 0) = 200
          ∧ logsHandler [("demo", demoRunRec)] (some "demo") (.num 0) =
              logsHandler [("demo", demoRunRec)] (some "demo") (.num 200)
          ∧ logsHandler [("demo", demoRunRec)] (some "demo") (.num 0) =
              .ok "demo" (min 200 demoRunRec.logs.length)
                (demoRunRec.logs.drop (demoRunRec.logs.length - 200))) :=
  ⟨⟨by decide, rfl⟩,
    limit_zero_default [("demo", demoRunRec)] "demo" demoRunRec (by decide) rfl⟩

/-- C6: with the template present, a create request for a name whose
project directory already exists is rejected with `alreadyExists`
(HTTP 409) and the filesystem is returned unchanged — no copy happens; in
particular a second create immediately after a successful first one is
rejected and leaves the first project's contents untouched. -/
theorem create_duplicate_rejected (name template : String)
    (hv : validNameStr name = true) :
    (∀ (fs : FsState) (tc pc : Nat) (copy : CopyOutcome),
        mapGet fs.templates template = some tc →
        mapGet fs.projects name = some pc →
        createHandler fs (some name) template copy =
            ⟨.alreadyExists name (getProjectPath name), fs⟩
          ∧ (CreateResp.alreadyExists name (getProjectPath name)).statusCode = 409)
      ∧ (∀ (fs : FsState) (tc : Nat) (copy : CopyOutcome),
          mapGet fs.templates template = some tc →
          mapGet fs.projects name = none →
          (createHandler fs (some name) template .success).resp =
              .created name (getProjectPath name)
            ∧ mapGet (createHandler fs (some name) template .success).fs.projects
                name = some tc
            ∧ createHandler (createHandler fs (some name) template .success).fs
                (some name) template copy =
                ⟨.alreadyExists name (getProjectPath name),
                  (createHandler fs (some name) template .success).fs⟩) := by
  refine ⟨?_, ?_⟩
  · intro fs tc pc copy ht hp
    exact ⟨createHandler_eq_exists fs template copy name tc pc hv ht hp, rfl⟩
  · intro fs tc copy ht hp
    have h1 := createHandler_eq_created fs template name tc hv ht hp
    rw [h1]
    have hproj : mapGet (mapSet fs.projects name tc) name = some tc := by
      rw [mapGet_mapSet]
      simp
    refine ⟨rfl, hproj, ?_⟩
    exact createHandler_eq_exists _ template copy name tc tc hv ht hproj

/-- Witness for C6: creating `"demo"` twice from template `"basic-app"` on
an initially empty project store. -/
theorem create_duplicate_rejected_witness :
    validNameStr "demo" = true
      ∧ mapGet (FsState.mk [("basic-app", 7)] []).templates "basic-app" = some 7
      ∧ mapGet (FsState.mk [("basic-app", 7)] []).projects "demo" = none
      ∧ ((createHandler (FsState.mk [("basic-app", 7)] []) (some "demo")
            "basic-app" .success).resp = .created "demo" (getProjectPath "demo")
        ∧ mapGet (createHandler (FsState.mk [("basic-app", 7)] []) (some "demo")
            "basic-app" .success).fs.projects "demo" = some 7
        ∧ createHandler (createHandler (FsState.mk [("basic-app", 7)] [])
              (some "demo") "basic-app" .success).fs (some "demo") "basic-app"
              .success =
            ⟨.alreadyExists "demo" (getProjectPath "demo"),
              (createHandler (FsState.mk [("basic-app", 7)] []) (some "demo")
                "basic-app" .success).fs⟩) :=
  ⟨by decide, rfl, rfl,
    (create_duplicate_rejected "demo" "basic-app" (by decide)).2
      (FsState.mk [("basic-app", 7)] []) 7 .success rfl rfl⟩

/-- C8: a string accepted by the project-name validator consists only of
ASCII letters, digits, dash and underscore — so it contains no path
separator and no traversal component — and the path built for it is the
projects directory extended by exactly that single separator-free segment;
every name-taking handler answers the invalid-name error without touching
any state when validation fails. -/
theorem valid_name_path_safe (s : String) (h : validNameStr s = true) :
    s.data.all isNameChar = true
      ∧ ('/' ∈ s.data → False)
      ∧ ('\\' ∈ s.data → False)
      ∧ ('.' ∈ s.data → False)
      ∧ s ≠ ""
      ∧ s ≠ "."
      ∧ s ≠ ".."
      ∧ getProjectPath s = PROJECTS_DIR ++ "/" ++ s
      ∧ (∀ (r : Registry) (b : StartBody) (env : StartEnv),
          validateProjectName b.name = false →
          startHandler r b env = ⟨.invalidName, r⟩)
      ∧ (∀ (r : Registry) (n? : Option String) (env : StopEnv),
          validateProjectName n? = false →
          stopHandler r n? env = ⟨.invalidName, r, none⟩)
      ∧ (∀ (r : Registry) (n? : Option String) (q : QueryLimit),
          validateProjectName n? = false →
          logsHandler r n? q = .invalidName)
      ∧ (∀ (fs : FsState) (n? : Option String) (t : String) (c : CopyOutcome),
          validateProjectName n? = false →
          createHandler fs n? t c = ⟨.invalidName, fs⟩) := by
  have hall : ∀ c ∈ s.data, isNameChar c = true := by
    have h2 := (Bool.and_eq_true _ _).mp h
    exact fun c hc => List.all_eq_true.mp h2.2 c hc
  have hne : s.length ≠ 0 := by
    have h2 := (Bool.and_eq_true _ _).mp h
    simpa using h2.1
  refine ⟨?_, ?_, ?_, ?_, ?_, ?_, ?_, rfl, ?_, ?_, ?_, ?_⟩
  · exact List.all_eq_true.mpr hall
  · intro hm
    exact absurd (hall '/' hm) (by decide)
  · intro hm
    exact absurd (hall '\\' hm) (by decide)
  · intro hm
    exact absurd (hall '.' hm) (by decide)
  · intro heq
    rw [heq] at hne
    exact hne rfl
  · intro heq
    have hm : '.' ∈ s.data := by
      rw [heq]
      decide
    exact absurd (hall '.' hm) (by decide)
  · intro heq
    have hm : '.' ∈ s.data := by
      rw [heq]
      decide
    exact absurd (hall '.' hm) (by decide)
  · intro r b env hbad
    cases hb : b.name with
    | none => exact startHandler_eq_noName r b env hb
    | some n =>
        rw [hb] at hbad
        exact startHandler_eq_invalid r b env n hb hbad
  · intro r n? env hbad
    cases n? with
    | none => exact stopHandler_eq_noName r env
    | some n => exact stopHandler_eq_invalid r env n hbad
  · intro r n? q hbad
    cases n? with
    | none => exact logsHandler_eq_noName r q
    | some n => exact logsHandler_eq_invalid r q n hbad
  · intro fs n? t c hbad
    cases n? with
    | none => exact createHandler_eq_noName fs t c
    | some n => exact createHandler_eq_invalid fs t c n hbad

/-- Witness for C8 at the concrete validated name `"my-app_2"`. -/
theorem valid_name_path_safe_witness :
    validNameStr "my-app_2" = true
      ∧ (("my-app_2").data.all isNameChar = true
          ∧ ('/' ∈ ("my-app_2").data → False)
          ∧ ('\\' ∈ ("my-app_2").data → False)
          ∧ ('.' ∈ ("my-app_2").data → False)
          ∧ "my-app_2" ≠ ""
          ∧ "my-app_2" ≠ "."
          ∧ "my-app_2" ≠ ".."
          ∧ getProjectPath "my-app_2" = PROJECTS_DIR ++ "/" ++ "my-app_2"
          ∧ (∀ (r : Registry) (b : StartBody) (env : StartEnv),
              validateProjectName b.name = false →
              startHandler r b env = ⟨.invalidName, r⟩)
          ∧ (∀ (r : Registry) (n? : Option String) (env : StopEnv),
              validateProjectName n? = false →
              stopHandler r n? env = ⟨.invalidName, r, none⟩)
          ∧ (∀ (r : Registry) (n? : Option String) (q : QueryLimit),
              validateProjectName n? = false →
              logsHandler r n? q = .invalidName)
          ∧ (∀ (fs : FsState) (n? : Option String) (t : String) (c : CopyOutcome),
              validateProjectName n? = false →
              createHandler fs n? t c = ⟨.invalidName, fs⟩)) :=
  ⟨by decide, valid_name_path_safe "my-app_2" (by decide)⟩
